import Mathlib

/-!
Verification development for the `uploads` application-distribution server
(`main.go`).  The registry data model, the persistence protocol and the
mutation handlers are shallowly embedded as pure Lean functions; file-system
effects are modelled by an explicit two-slot file state (the primary metadata
file and its `.bak` backup), and the fallible external steps
(`json.MarshalIndent`, `os.WriteFile`, `os.ReadFile`, `json.Unmarshal`) are
abstracted by parameters.
-/

namespace Uploads

/-- Mirrors Go `BuildInfo` (main.go): one uploaded build of an app.
`fileSize` (Go `int64`) is modelled as `Int`. -/
structure BuildInfo where
  version : String
  channel : String
  releaseNotes : String
  fileName : String
  fileSize : Int
  uploadTime : String
  downloadURL : String
deriving DecidableEq, Repr

/-- Mirrors Go `AppEntry`: a unique app identified by package name. -/
structure AppEntry where
  appName : String
  packageName : String
  iconPath : String
  builds : List BuildInfo
deriving DecidableEq, Repr

/-- Mirrors Go `Project`: a project category holding apps. -/
structure Project where
  projectName : String
  apps : List AppEntry
deriving DecidableEq, Repr

/-- The in-memory registry: Go's global `allProjects []Project`. -/
abbrev Registry := List Project

/-- Mirrors Go `AppInfo`: the tuple extracted from an uploaded APK. -/
structure AppInfo where
  appName : String
  packageName : String
  version : String
  iconPath : String
deriving DecidableEq, Repr

/-- Go constant `deletePassword = "9527"` (main.go). -/
def deletePassword : String := "9527"

/-- The durable state visible to `saveMetadata`/`loadMetadata`: the contents
(if any) of the primary metadata file and of its `.bak` backup file. -/
structure FS where
  primary : Option String
  backup : Option String
deriving DecidableEq, Repr

/-- The two failure points of `saveMetadata`: `json.MarshalIndent` failing,
or `os.WriteFile` failing. -/
inductive SaveErr where
  | marshalErr
  | writeErr
deriving DecidableEq, Repr

/-- Effect of `os.Rename(backupPath, metadataFilePath)`: move the backup file
onto the primary path when the backup exists; when the backup file is absent
the rename fails and the Go code ignores the error, so nothing changes. -/
def restoreFromBackup (fs : FS) : FS :=
  match fs.backup with
  | some content => { primary := some content, backup := none }
  | none => fs

/-- Shallow embedding of `saveMetadata` (main.go, backup-based version).
Control flow mirrors the Go statement by statement:
stat-guarded rename of the primary file to the backup path, marshal, write,
restore-from-backup on either failure, removal of the backup on success.
`marshal` abstracts `json.MarshalIndent` (`none` = marshal error) and
`writeOk` abstracts whether `os.WriteFile` succeeds. -/
def saveMetadata (marshal : Registry → Option String) (writeOk : Bool)
    (reg : Registry) (fs : FS) : FS × Option SaveErr :=
  -- if _, err := os.Stat(metadataFilePath); err == nil
  --   { os.Rename(metadataFilePath, backupPath) }
  let staged : FS :=
    match fs.primary with
    | some content => { primary := none, backup := some content }
    | none => fs
  -- data, err := json.MarshalIndent(allProjects, "", "  ")
  match marshal reg with
  | none =>
      -- os.Rename(backupPath, metadataFilePath); return err
      (restoreFromBackup staged, some SaveErr.marshalErr)
  | some data =>
      -- err = os.WriteFile(metadataFilePath, data, 0644)
      if writeOk then
        -- os.Remove(backupPath); return nil
        ({ primary := some data, backup := none }, none)
      else
        -- os.Rename(backupPath, metadataFilePath); return wrapped err
        (restoreFromBackup staged, some SaveErr.writeErr)

/-- Outcome of `os.ReadFile(metadataFilePath)` in `loadMetadata`. -/
inductive ReadResult where
  | success (data : String)
  | notExist
  | readErr
deriving DecidableEq, Repr

/-- The failure modes of `loadMetadata`: a read error other than
non-existence, or a `json.Unmarshal` failure. -/
inductive LoadErr where
  | readFailed
  | parseFailed
deriving DecidableEq, Repr

/-- Shallow embedding of `loadMetadata` (main.go).  `parse` abstracts
`json.Unmarshal` (`none` = parse error).  A missing file yields the empty
registry; any other read error, or a parse error, is returned to the
caller. -/
def loadMetadata (parse : String → Option Registry) (r : ReadResult) :
    Except LoadErr Registry :=
  match r with
  | ReadResult.notExist => Except.ok []
  | ReadResult.readErr => Except.error LoadErr.readFailed
  | ReadResult.success data =>
      match parse data with
      | none => Except.error LoadErr.parseFailed
      | some reg => Except.ok reg

/-- C1: the save operation follows the backup-then-write protocol.  Starting
from a clean state (no leftover backup file): on success the serialized
registry is at the primary path and the backup file has been deleted; on a
serialization failure or a write failure the backup is renamed back so the
primary file holds exactly its previous contents, and the error is
propagated to the caller. -/
theorem save_backup_protocol (marshal : Registry → Option String)
    (writeOk : Bool) (reg : Registry) (fs : FS) (hb : fs.backup = none) :
    (∀ d, marshal reg = some d → writeOk = true →
        saveMetadata marshal writeOk reg fs =
          ({ primary := some d, backup := none }, none)) ∧
    (marshal reg = none →
        saveMetadata marshal writeOk reg fs =
          ({ primary := fs.primary, backup := none }, some SaveErr.marshalErr)) ∧
    (∀ d, marshal reg = some d → writeOk = false →
        saveMetadata marshal writeOk reg fs =
          ({ primary := fs.primary, backup := none }, some SaveErr.writeErr)) := by
  obtain ⟨p, b⟩ := fs
  cases hb
  refine ⟨?_, ?_, ?_⟩
  · intro d hm hw
    subst hw
    simp [saveMetadata, hm]
  · intro hm
    cases p <;> simp [saveMetadata, hm, restoreFromBackup]
  · intro d hm hw
    subst hw
    cases p <;> simp [saveMetadata, hm, restoreFromBackup]

/-- Witness for `save_backup_protocol` at a concrete state. -/
theorem save_backup_protocol_witness :
    saveMetadata (fun _ => some "[]") true []
        { primary := some "old", backup := none } =
      ({ primary := some "[]", backup := none }, none) :=
  (save_backup_protocol (fun _ => some "[]") true []
    { primary := some "old", backup := none } rfl).1 "[]" rfl rfl

/-- C7: `loadMetadata` returns the empty registry (not an error) when the
durable file does not exist; fails when the file exists but does not parse;
and returns exactly the parsed contents when parsing succeeds. -/
theorem load_cold_start_and_parse (parse : String → Option Registry) :
    loadMetadata parse ReadResult.notExist = Except.ok [] ∧
    (∀ s, parse s = none →
        loadMetadata parse (ReadResult.success s) =
          Except.error LoadErr.parseFailed) ∧
    (∀ s reg, parse s = some reg →
        loadMetadata parse (ReadResult.success s) = Except.ok reg) := by
  refine ⟨rfl, ?_, ?_⟩
  · intro s hs
    simp [loadMetadata, hs]
  · intro s reg hs
    simp [loadMetadata, hs]

/-- Witness for `load_cold_start_and_parse` at a concrete parser. -/
theorem load_cold_start_and_parse_witness :
    loadMetadata (fun _ => none) (ReadResult.success "garbage") =
      Except.error LoadErr.parseFailed :=
  (load_cold_start_and_parse (fun _ => none)).2.1 "garbage" rfl

/-- Apps half of `updateMetadata` (main.go): scan for the first `AppEntry`
whose package name matches; if found, overwrite `appName` unconditionally,
overwrite `iconPath` only when the incoming icon path is non-empty, and
prepend the new build; if no entry matches, append a fresh entry (whose
icon path is taken from `appInfo` unconditionally and whose build list
starts empty) and prepend the new build to it.  The unconditional prepend
`appEntry.Builds = append([]BuildInfo{newBuild}, appEntry.Builds...)` of the
Go is fused into both branches. -/
def upsertApps (apps : List AppEntry) (appInfo : AppInfo)
    (newBuild : BuildInfo) : List AppEntry :=
  match apps with
  | [] =>
      [{ appName := appInfo.appName, packageName := appInfo.packageName,
         iconPath := appInfo.iconPath, builds := [newBuild] }]
  | a :: rest =>
      if a.packageName == appInfo.packageName then
        { a with
            appName := appInfo.appName,
            iconPath := if appInfo.iconPath == "" then a.iconPath
                        else appInfo.iconPath,
            builds := newBuild :: a.builds } :: rest
      else
        a :: upsertApps rest appInfo newBuild

/-- Projects half of `updateMetadata` (main.go): scan for the first
`Project` whose name matches and upsert the app inside it; if no project
matches, append a fresh project (Go appends `Project{projectName, []}` to
`allProjects` and then upserts into it). -/
def upsertProjects (reg : Registry) (projectName : String) (appInfo : AppInfo)
    (newBuild : BuildInfo) : Registry :=
  match reg with
  | [] => [{ projectName := projectName, apps := upsertApps [] appInfo newBuild }]
  | p :: rest =>
      if p.projectName == projectName then
        { p with apps := upsertApps p.apps appInfo newBuild } :: rest
      else
        p :: upsertProjects rest projectName appInfo newBuild

/-- The mutable program state touched by the handlers: the in-memory
registry (`allProjects`) and the durable file state. -/
structure SysState where
  reg : Registry
  fs : FS
deriving DecidableEq, Repr

/-- Full `updateMetadata` (main.go): the in-memory upsert followed by
`saveMetadata`; the save error, if any, is returned unchanged, and the
in-memory mutation is kept either way (the Go ends in
`return saveMetadata()` with no rollback). -/
def updateMetadata (marshal : Registry → Option String) (writeOk : Bool)
    (projectName : String) (appInfo : AppInfo) (newBuild : BuildInfo)
    (st : SysState) : SysState × Option SaveErr :=
  let reg := upsertProjects st.reg projectName appInfo newBuild
  let r := saveMetadata marshal writeOk reg st.fs
  ({ reg := reg, fs := r.1 }, r.2)

/-- Builds currently stored for package `pkg` inside the project named `pn`
(first-match lookups, as the Go scans do); `[]` when absent. -/
def buildsOf (reg : Registry) (pn pkg : String) : List BuildInfo :=
  match reg.find? (fun p => p.projectName == pn) with
  | none => []
  | some p =>
      match p.apps.find? (fun a => a.packageName == pkg) with
      | none => []
      | some a => a.builds

/-- After an upsert into an app list with no matching entry, the first
matching entry is the freshly created one: incoming name and icon, and the
new build as its only build. -/
theorem find_upsertApps_new (apps : List AppEntry) (ai : AppInfo)
    (b : BuildInfo)
    (h : apps.find? (fun a => a.packageName == ai.packageName) = none) :
    (upsertApps apps ai b).find? (fun a => a.packageName == ai.packageName) =
      some { appName := ai.appName, packageName := ai.packageName,
             iconPath := ai.iconPath, builds := [b] } := by
  induction apps with
  | nil => simp [upsertApps]
  | cons a rest ih =>
      cases hq : (a.packageName == ai.packageName) with
      | true => simp [List.find?_cons, hq] at h
      | false =>
          simp only [List.find?_cons, hq] at h
          simp only [upsertApps, hq, Bool.false_eq_true, if_false,
            List.find?_cons]
          exact ih h

/-- After an upsert into an app list whose first matching entry is `a`, the
first matching entry has the incoming app name, the conditionally refreshed
icon path, and the new build prepended to `a`'s builds. -/
theorem find_upsertApps_existing (apps : List AppEntry) (ai : AppInfo)
    (b : BuildInfo) (a : AppEntry)
    (h : apps.find? (fun x => x.packageName == ai.packageName) = some a) :
    (upsertApps apps ai b).find? (fun x => x.packageName == ai.packageName) =
      some { a with
              appName := ai.appName,
              iconPath := if ai.iconPath == "" then a.iconPath else ai.iconPath,
              builds := b :: a.builds } := by
  induction apps with
  | nil => simp at h
  | cons x rest ih =>
      cases hq : (x.packageName == ai.packageName) with
      | true =>
          simp only [List.find?_cons, hq, Option.some.injEq] at h
          subst h
          simp [upsertApps, List.find?_cons, hq]
      | false =>
          simp only [List.find?_cons, hq] at h
          simp only [upsertApps, hq, Bool.false_eq_true, if_false,
            List.find?_cons]
          exact ih h

/-- After an upsert into a registry with no project of the given name, the
first matching project is the freshly appended one, holding exactly the
upserted app list. -/
theorem find_upsertProjects_new (reg : Registry) (pn : String) (ai : AppInfo)
    (b : BuildInfo)
    (h : reg.find? (fun p => p.projectName == pn) = none) :
    (upsertProjects reg pn ai b).find? (fun p => p.projectName == pn) =
      some { projectName := pn, apps := upsertApps [] ai b } := by
  induction reg with
  | nil => simp [upsertProjects]
  | cons p rest ih =>
      cases hq : (p.projectName == pn) with
      | true => simp [List.find?_cons, hq] at h
      | false =>
          simp only [List.find?_cons, hq] at h
          simp only [upsertProjects, hq, Bool.false_eq_true, if_false,
            List.find?_cons]
          exact ih h

/-- After an upsert into a registry whose first matching project is `p`, the
first matching project is `p` with its app list upserted. -/
theorem find_upsertProjects_existing (reg : Registry) (pn : String)
    (ai : AppInfo) (b : BuildInfo) (p : Project)
    (h : reg.find? (fun q => q.projectName == pn) = some p) :
    (upsertProjects reg pn ai b).find? (fun q => q.projectName == pn) =
      some { p with apps := upsertApps p.apps ai b } := by
  induction reg with
  | nil => simp at h
  | cons q rest ih =>
      cases hq : (q.projectName == pn) with
      | true =>
          simp only [List.find?_cons, hq, Option.some.injEq] at h
          subst h
          simp [upsertProjects, List.find?_cons, hq]
      | false =>
          simp only [List.find?_cons, hq] at h
          simp only [upsertProjects, hq, Bool.false_eq_true, if_false,
            List.find?_cons]
          exact ih h

/-- C4: after every upsert, the new build is the first element of the target
app entry's build list and the previously stored builds follow it in their
previous order. -/
theorem upsert_prepends_newest_first (reg : Registry) (pn : String)
    (ai : AppInfo) (b : BuildInfo) :
    ∃ p a,
      (upsertProjects reg pn ai b).find? (fun q => q.projectName == pn) =
        some p ∧
      p.apps.find? (fun x => x.packageName == ai.packageName) = some a ∧
      a.builds = b :: buildsOf reg pn ai.packageName := by
  cases hp : reg.find? (fun q => q.projectName == pn) with
  | none =>
      refine ⟨{ projectName := pn, apps := upsertApps [] ai b },
        { appName := ai.appName, packageName := ai.packageName,
          iconPath := ai.iconPath, builds := [b] },
        find_upsertProjects_new reg pn ai b hp, ?_, ?_⟩
      · simp [upsertApps]
      · simp [buildsOf, hp]
  | some p =>
      cases ha : p.apps.find? (fun x => x.packageName == ai.packageName) with
      | none =>
          refine ⟨{ p with apps := upsertApps p.apps ai b },
            { appName := ai.appName, packageName := ai.packageName,
              iconPath := ai.iconPath, builds := [b] },
            find_upsertProjects_existing reg pn ai b p hp,
            find_upsertApps_new p.apps ai b ha, ?_⟩
          simp [buildsOf, hp, ha]
      | some a =>
          refine ⟨{ p with apps := upsertApps p.apps ai b },
            { a with
                appName := ai.appName,
                iconPath := if ai.iconPath == "" then a.iconPath
                            else ai.iconPath,
                builds := b :: a.builds },
            find_upsertProjects_existing reg pn ai b p hp,
            find_upsertApps_existing p.apps ai b a ha, ?_⟩
          simp [buildsOf, hp, ha]

/-- C8: on an upsert that hits an existing app entry, `appName` is
overwritten unconditionally while `iconPath` is overwritten only when the
incoming icon path is non-empty; in particular an empty incoming icon path
leaves the stored icon path untouched. -/
theorem upsert_icon_refresh (reg : Registry) (pn : String) (ai : AppInfo)
    (b : BuildInfo) (p : Project) (a : AppEntry)
    (hp : reg.find? (fun q => q.projectName == pn) = some p)
    (ha : p.apps.find? (fun x => x.packageName == ai.packageName) = some a) :
    ∃ a',
      (upsertProjects reg pn ai b).find? (fun q => q.projectName == pn) =
        some { p with apps := upsertApps p.apps ai b } ∧
      (upsertApps p.apps ai b).find?
        (fun x => x.packageName == ai.packageName) = some a' ∧
      a'.appName = ai.appName ∧
      (ai.iconPath = "" → a'.iconPath = a.iconPath) ∧
      (ai.iconPath ≠ "" → a'.iconPath = ai.iconPath) := by
  refine ⟨_, find_upsertProjects_existing reg pn ai b p hp,
    find_upsertApps_existing p.apps ai b a ha, rfl, ?_, ?_⟩
  · intro he
    simp [he]
  · intro he
    simp [he]

/-- Witness for `upsert_icon_refresh`: an upsert carrying an empty icon path
into an existing entry keeps the stored icon path. -/
theorem upsert_icon_refresh_witness :
    ∃ a',
      (upsertProjects
          [{ projectName := "P",
             apps := [{ appName := "Old", packageName := "com.a",
                        iconPath := "static/icons/com.a.png", builds := [] }] }]
          "P" { appName := "New", packageName := "com.a", version := "1.1",
                iconPath := "" }
          { version := "1.1", channel := "beta", releaseNotes := "",
            fileName := "f2", fileSize := 2, uploadTime := "t2",
            downloadURL := "u2" }).find? (fun q => q.projectName == "P") =
        some { projectName := "P",
               apps := upsertApps
                 [{ appName := "Old", packageName := "com.a",
                    iconPath := "static/icons/com.a.png", builds := [] }]
                 { appName := "New", packageName := "com.a", version := "1.1",
                   iconPath := "" }
                 { version := "1.1", channel := "beta", releaseNotes := "",
                   fileName := "f2", fileSize := 2, uploadTime := "t2",
                   downloadURL := "u2" } } ∧
      (upsertApps
          [{ appName := "Old", packageName := "com.a",
             iconPath := "static/icons/com.a.png", builds := [] }]
          { appName := "New", packageName := "com.a", version := "1.1",
            iconPath := "" }
          { version := "1.1", channel := "beta", releaseNotes := "",
            fileName := "f2", fileSize := 2, uploadTime := "t2",
            downloadURL := "u2" }).find?
        (fun x => x.packageName == "com.a") = some a' ∧
      a'.appName = "New" ∧
      ("" = "" → a'.iconPath = "static/icons/com.a.png") ∧
      ("" ≠ "" → a'.iconPath = "") :=
  upsert_icon_refresh
    [{ projectName := "P",
       apps := [{ appName := "Old", packageName := "com.a",
                  iconPath := "static/icons/com.a.png", builds := [] }] }]
    "P"
    { appName := "New", packageName := "com.a", version := "1.1",
      iconPath := "" }
    { version := "1.1", channel := "beta", releaseNotes := "",
      fileName := "f2", fileSize := 2, uploadTime := "t2",
      downloadURL := "u2" }
    { projectName := "P",
      apps := [{ appName := "Old", packageName := "com.a",
                 iconPath := "static/icons/com.a.png", builds := [] }] }
    { appName := "Old", packageName := "com.a",
      iconPath := "static/icons/com.a.png", builds := [] }
    rfl rfl

/-- C9: when the persistence step of an upsert fails, the in-memory
mutation is not rolled back (the registry afterwards is exactly the mutated
one) and the persistence error is returned to the caller unchanged. -/
theorem upsert_no_rollback (marshal : Registry → Option String)
    (writeOk : Bool) (pn : String) (ai : AppInfo) (b : BuildInfo)
    (st : SysState) (e : SaveErr)
    (h : (updateMetadata marshal writeOk pn ai b st).2 = some e) :
    (updateMetadata marshal writeOk pn ai b st).1.reg =
      upsertProjects st.reg pn ai b ∧
    (saveMetadata marshal writeOk (upsertProjects st.reg pn ai b) st.fs).2 =
      some e :=
  ⟨rfl, h⟩

/-- Witness for `upsert_no_rollback` at a concrete failing marshal step. -/
theorem upsert_no_rollback_witness :
    (updateMetadata (fun _ => none) true "P"
        { appName := "A", packageName := "com.a", version := "1.0",
          iconPath := "" }
        { version := "1.0", channel := "beta", releaseNotes := "",
          fileName := "f1", fileSize := 1, uploadTime := "t", downloadURL := "u" }
        { reg := [], fs := { primary := none, backup := none } }).1.reg =
      upsertProjects [] "P"
        { appName := "A", packageName := "com.a", version := "1.0",
          iconPath := "" }
        { version := "1.0", channel := "beta", releaseNotes := "",
          fileName := "f1", fileSize := 1, uploadTime := "t",
          downloadURL := "u" } ∧
    (saveMetadata (fun _ => none) true
        (upsertProjects [] "P"
          { appName := "A", packageName := "com.a", version := "1.0",
            iconPath := "" }
          { version := "1.0", channel := "beta", releaseNotes := "",
            fileName := "f1", fileSize := 1, uploadTime := "t",
            downloadURL := "u" })
        { primary := none, backup := none }).2 = some SaveErr.marshalErr :=
  upsert_no_rollback (fun _ => none) true "P"
    { appName := "A", packageName := "com.a", version := "1.0", iconPath := "" }
    { version := "1.0", channel := "beta", releaseNotes := "", fileName := "f1",
      fileSize := 1, uploadTime := "t", downloadURL := "u" }
    { reg := [], fs := { primary := none, backup := none } }
    SaveErr.marshalErr rfl

/-- One call to the upload-ingestion upsert, with its three arguments. -/
structure UpsertCall where
  projectName : String
  appInfo : AppInfo
  build : BuildInfo
deriving DecidableEq, Repr

/-- Run a sequence of upserts (the in-memory half of `updateMetadata`)
starting from the empty registry. -/
def runUpserts (calls : List UpsertCall) : Registry :=
  calls.foldl (fun reg c => upsertProjects reg c.projectName c.appInfo c.build) []

/-- Number of app entries with the given package name across the whole
registry. -/
def appEntriesWithPkg (reg : Registry) (pkg : String) : Nat :=
  (reg.map (fun p => p.apps.countP (fun a => a.packageName == pkg))).sum

/-- Package names of an upserted app list: unchanged when an entry with the
incoming package name was already present, extended by that package name
otherwise. -/
theorem pkgs_upsertApps (apps : List AppEntry) (ai : AppInfo) (b : BuildInfo) :
    (upsertApps apps ai b).map AppEntry.packageName =
      if apps.any (fun a => a.packageName == ai.packageName)
      then apps.map AppEntry.packageName
      else apps.map AppEntry.packageName ++ [ai.packageName] := by
  induction apps with
  | nil => simp [upsertApps]
  | cons a rest ih =>
      cases hq : (a.packageName == ai.packageName) with
      | true => simp [upsertApps, hq]
      | false =>
          simp only [upsertApps, hq, Bool.false_eq_true, if_false,
            List.map_cons, List.any_cons, Bool.false_or, ih]
          split <;> simp

/-- Project names of an upserted registry: unchanged when a project of the
given name was already present, extended by that name otherwise. -/
theorem names_upsertProjects (reg : Registry) (pn : String) (ai : AppInfo)
    (b : BuildInfo) :
    (upsertProjects reg pn ai b).map Project.projectName =
      if reg.any (fun p => p.projectName == pn)
      then reg.map Project.projectName
      else reg.map Project.projectName ++ [pn] := by
  induction reg with
  | nil => simp [upsertProjects]
  | cons p rest ih =>
      cases hq : (p.projectName == pn) with
      | true => simp [upsertProjects, hq]
      | false =>
          simp only [upsertProjects, hq, Bool.false_eq_true, if_false,
            List.map_cons, List.any_cons, Bool.false_or, ih]
          split <;> simp

/-- An upsert keeps the package names inside one app list duplicate-free. -/
theorem nodup_upsertApps (apps : List AppEntry) (ai : AppInfo) (b : BuildInfo)
    (h : (apps.map AppEntry.packageName).Nodup) :
    ((upsertApps apps ai b).map AppEntry.packageName).Nodup := by
  rw [pkgs_upsertApps]
  split
  · exact h
  · rename_i hany
    have hnotin : ai.packageName ∉ apps.map AppEntry.packageName := by
      intro hmem
      rcases List.mem_map.mp hmem with ⟨x, hx, hxe⟩
      exact hany (List.any_eq_true.mpr ⟨x, hx, by simp [hxe]⟩)
    simp [List.nodup_append, h, hnotin, List.disjoint_singleton]

/-- Every project of an upserted registry is an untouched old project, an
old project with its app list upserted, or the freshly created project. -/
theorem mem_upsertProjects (reg : Registry) (pn : String) (ai : AppInfo)
    (b : BuildInfo) (p : Project) (hp : p ∈ upsertProjects reg pn ai b) :
    p ∈ reg ∨ (∃ q ∈ reg, p = { q with apps := upsertApps q.apps ai b }) ∨
      p = { projectName := pn, apps := upsertApps [] ai b } := by
  induction reg with
  | nil =>
      simp only [upsertProjects, List.mem_singleton] at hp
      exact Or.inr (Or.inr hp)
  | cons q rest ih =>
      cases hq : (q.projectName == pn) with
      | true =>
          rw [upsertProjects, if_pos hq] at hp
          rcases List.mem_cons.mp hp with h1 | h1
          · exact Or.inr (Or.inl ⟨q, List.mem_cons_self q rest, h1⟩)
          · exact Or.inl (List.mem_cons_of_mem q h1)
      | false =>
          rw [upsertProjects, if_neg (by simp [hq])] at hp
          rcases List.mem_cons.mp hp with h1 | h1
          · exact Or.inl (h1 ▸ List.mem_cons_self q rest)
          · rcases ih h1 with h2 | ⟨r, hr, h2⟩ | h2
            · exact Or.inl (List.mem_cons_of_mem q h2)
            · exact Or.inr (Or.inl ⟨r, List.mem_cons_of_mem q hr, h2⟩)
            · exact Or.inr (Or.inr h2)

/-- Well-formedness invariant of the registry: project names are pairwise
distinct, and inside each project the package names are pairwise distinct. -/
def RegWF (reg : Registry) : Prop :=
  (reg.map Project.projectName).Nodup ∧
    ∀ p ∈ reg, (p.apps.map AppEntry.packageName).Nodup

/-- A single upsert preserves the well-formedness invariant. -/
theorem upsert_registry_wf (reg : Registry) (pn : String) (ai : AppInfo)
    (b : BuildInfo) (h : RegWF reg) : RegWF (upsertProjects reg pn ai b) := by
  obtain ⟨hn, ha⟩ := h
  constructor
  · rw [names_upsertProjects]
    split
    · exact hn
    · rename_i hany
      have hnotin : pn ∉ reg.map Project.projectName := by
        intro hmem
        rcases List.mem_map.mp hmem with ⟨x, hx, hxe⟩
        exact hany (List.any_eq_true.mpr ⟨x, hx, by simp [hxe]⟩)
      simp [List.nodup_append, hn, hnotin, List.disjoint_singleton]
  · intro p hp
    rcases mem_upsertProjects reg pn ai b p hp with h1 | ⟨q, hq, rfl⟩ | rfl
    · exact ha p h1
    · exact nodup_upsertApps q.apps ai b (ha q hq)
    · exact nodup_upsertApps [] ai b (by simp)

/-- Folding upserts over any well-formed start state stays well-formed. -/
theorem foldl_upserts_wf (calls : List UpsertCall) (reg : Registry)
    (h : RegWF reg) :
    RegWF (calls.foldl
      (fun r c => upsertProjects r c.projectName c.appInfo c.build) reg) := by
  induction calls generalizing reg with
  | nil => exact h
  | cons c rest ih =>
      exact ih _ (upsert_registry_wf reg c.projectName c.appInfo c.build h)

/-- C3 (counterexample to the claim as stated): two upserts from the empty
registry with the same package name under two different project names leave
TWO app entries with package name `com.a` in the registry, so the package
name is not unique across projects. -/
theorem upsert_global_pkg_unique_cex :
    appEntriesWithPkg
      (runUpserts
        [{ projectName := "P1",
           appInfo := { appName := "A", packageName := "com.a",
                        version := "1.0", iconPath := "" },
           build := { version := "1.0", channel := "beta", releaseNotes := "",
                      fileName := "f1", fileSize := 1, uploadTime := "t1",
                      downloadURL := "u1" } },
         { projectName := "P2",
           appInfo := { appName := "A", packageName := "com.a",
                        version := "1.0", iconPath := "" },
           build := { version := "1.0", channel := "beta", releaseNotes := "",
                      fileName := "f2", fileSize := 1, uploadTime := "t2",
                      downloadURL := "u2" } }])
      "com.a" = 2 := by
  rfl

/-- C3 (amended): for every sequence of upsert calls starting from the empty
registry, the registry contains at most one project per project name and at
most one app entry per package name WITHIN EACH PROJECT; the same package
name can however appear in several projects (see the counterexample). -/
theorem upsert_sequences_wf (calls : List UpsertCall) :
    RegWF (runUpserts calls) :=
  foldl_upserts_wf calls [] ⟨by simp, by simp⟩

/-- Outcome of the registry part of a delete-build request. -/
inductive DelOutcome where
  | notFound
  | ok
deriving DecidableEq, Repr

/-- Inner loops of `handleDeleteBuild` (main.go) over one project's apps:
find the first entry whose package name matches; replace its build list by
the builds whose file name does not match (Go rebuilds `newBuilds`), also
reporting the new build list and whether any build matched; `none` when no
entry has the package name. -/
def delBuildInApps (apps : List AppEntry) (pkg fn : String) :
    Option (List AppEntry × List BuildInfo × Bool) :=
  match apps with
  | [] => none
  | a :: rest =>
      if a.packageName == pkg then
        some ({ a with builds := a.builds.filter (fun b => !(b.fileName == fn)) } :: rest,
              a.builds.filter (fun b => !(b.fileName == fn)),
              a.builds.any (fun b => b.fileName == fn))
      else
        match delBuildInApps rest pkg fn with
        | none => none
        | some (rest', nb, found) => some (a :: rest', nb, found)

/-- Registry part of `handleDeleteBuild` (main.go): scan projects for the
first one containing an app entry with the package name and filter that
entry's builds; report not-found when no build matched (also when no such
app exists anywhere — the handler reports both with the same message); when
the entry's build list becomes empty, additionally remove every entry with
the package name from that project.  The project itself is never removed,
even when its app list becomes empty. -/
def deleteBuildReg (reg : Registry) (pkg fn : String) :
    Registry × DelOutcome :=
  match reg with
  | [] => ([], DelOutcome.notFound)
  | p :: rest =>
      match delBuildInApps p.apps pkg fn with
      | none =>
          let r := deleteBuildReg rest pkg fn
          (p :: r.1, r.2)
      | some (apps', newBuilds, found) =>
          if found then
            if newBuilds.isEmpty then
              ({ p with apps := apps'.filter (fun a => !(a.packageName == pkg)) } :: rest,
               DelOutcome.ok)
            else ({ p with apps := apps' } :: rest, DelOutcome.ok)
          else ({ p with apps := apps' } :: rest, DelOutcome.notFound)

/-- An HTTP status code plus the message the handler answers with. -/
structure HttpResp where
  status : Nat
  message : String
deriving DecidableEq, Repr

/-- Shallow embedding of `handleDeleteBuild` (main.go): the caller-supplied
password is compared with `deletePassword` before anything else; then the
registry mutation runs, then `saveMetadata`.  Physical file removal is a
best-effort collaborator step outside the registry model. -/
def handleDeleteBuild (marshal : Registry → Option String) (writeOk : Bool)
    (password pkg fn : String) (st : SysState) : SysState × HttpResp :=
  if password == deletePassword then
    let r := deleteBuildReg st.reg pkg fn
    match r.2 with
    | DelOutcome.notFound =>
        ({ st with reg := r.1 }, { status := 404, message := "构建版本未找到" })
    | DelOutcome.ok =>
        let s := saveMetadata marshal writeOk r.1 st.fs
        match s.2 with
        | some _ => ({ reg := r.1, fs := s.1 }, { status := 500, message := "更新元数据失败" })
        | none => ({ reg := r.1, fs := s.1 }, { status := 200, message := "构建版本已删除" })
  else
    (st, { status := 401, message := "删除密码错误" })

/-- An app list with no entry for the package yields no match in the
delete-build scan. -/
theorem delBuildInApps_none (apps : List AppEntry) (pkg fn : String)
    (h : ∀ x ∈ apps, x.packageName ≠ pkg) :
    delBuildInApps apps pkg fn = none := by
  induction apps with
  | nil => rfl
  | cons a rest ih =>
      have ha : (a.packageName == pkg) = false := by
        simp [h a (List.mem_cons_self a rest)]
      rw [delBuildInApps, if_neg (by simp [ha]),
        ih (fun x hx => h x (List.mem_cons_of_mem a hx))]

/-- Delete-build scan on an app list whose first matching entry is `a`
(after a pkg-free prefix): the entry's builds are filtered in place. -/
theorem delBuildInApps_found (apre : List AppEntry) (a : AppEntry)
    (apost : List AppEntry) (pkg fn : String)
    (hapre : ∀ x ∈ apre, x.packageName ≠ pkg) (hpk : a.packageName = pkg) :
    delBuildInApps (apre ++ a :: apost) pkg fn =
      some (apre ++ { a with builds := a.builds.filter (fun b => !(b.fileName == fn)) } :: apost,
            a.builds.filter (fun b => !(b.fileName == fn)),
            a.builds.any (fun b => b.fileName == fn)) := by
  induction apre with
  | nil =>
      rw [List.nil_append, List.nil_append, delBuildInApps,
        if_pos (by simp [hpk])]
  | cons x rest ih =>
      have hx : (x.packageName == pkg) = false := by
        simp [hapre x (List.mem_cons_self x rest)]
      rw [List.cons_append, delBuildInApps, if_neg (by simp [hx]),
        ih (fun y hy => hapre y (List.mem_cons_of_mem x hy))]
      rfl

/-- Delete-build passes unchanged over a prefix of projects containing no
entry for the package. -/
theorem deleteBuildReg_append_none (pre rest : Registry) (pkg fn : String)
    (hpre : ∀ q ∈ pre, ∀ x ∈ q.apps, x.packageName ≠ pkg) :
    deleteBuildReg (pre ++ rest) pkg fn =
      (pre ++ (deleteBuildReg rest pkg fn).1, (deleteBuildReg rest pkg fn).2) := by
  induction pre with
  | nil => simp
  | cons q pre' ih =>
      have hq : delBuildInApps q.apps pkg fn = none :=
        delBuildInApps_none q.apps pkg fn (hpre q (List.mem_cons_self q pre'))
      rw [List.cons_append, deleteBuildReg, hq,
        ih (fun r hr => hpre r (List.mem_cons_of_mem q hr))]
      rfl

/-- C2 (counterexample to the claim as stated): deleting the only build of
the only app of a project removes the app entry but KEEPS the now-empty
project in the registry; the claim demands that the project be removed as
well, which would leave the registry empty. -/
theorem deleteBuild_cascade_cex :
    deleteBuildReg
        [{ projectName := "P",
           apps := [{ appName := "A", packageName := "com.a", iconPath := "",
                      builds := [{ version := "1.0", channel := "beta",
                                   releaseNotes := "", fileName := "f1",
                                   fileSize := 1, uploadTime := "t",
                                   downloadURL := "u" }] }] }]
        "com.a" "f1" =
      ([{ projectName := "P", apps := [] }], DelOutcome.ok) ∧
    ([{ projectName := "P", apps := [] }] : Registry) ≠ ([] : Registry) := by
  exact ⟨rfl, by simp⟩

/-- C2 (amended): when the build with the given file name is the only build
of the first app entry found for the package, the delete-build operation
removes that app entry from its project and succeeds; the project itself is
RETAINED in the registry even when its app list becomes empty (the code
never removes a project in `handleDeleteBuild`). -/
theorem deleteBuild_removes_last_build_app (pre post : Registry)
    (p : Project) (apre apost : List AppEntry) (a : AppEntry) (b : BuildInfo)
    (pkg fn : String)
    (hpre : ∀ q ∈ pre, ∀ x ∈ q.apps, x.packageName ≠ pkg)
    (hapre : ∀ x ∈ apre, x.packageName ≠ pkg)
    (hpk : a.packageName = pkg)
    (hb : a.builds = [b]) (hfn : b.fileName = fn)
    (happs : p.apps = apre ++ a :: apost) :
    deleteBuildReg (pre ++ p :: post) pkg fn =
      (pre ++ { p with apps := apre ++ apost.filter (fun x => !(x.packageName == pkg)) } :: post,
       DelOutcome.ok) := by
  rw [deleteBuildReg_append_none pre (p :: post) pkg fn hpre]
  have h1 : delBuildInApps p.apps pkg fn =
      some (apre ++ { a with builds := [] } :: apost, [], true) := by
    rw [happs, delBuildInApps_found apre a apost pkg fn hapre hpk, hb]
    simp [hfn]
  have h2 : (apre ++ { a with builds := ([] : List BuildInfo) } :: apost).filter
        (fun x => !(x.packageName == pkg)) =
      apre ++ apost.filter (fun x => !(x.packageName == pkg)) := by
    rw [List.filter_append]
    congr 1
    · exact List.filter_eq_self.mpr (fun x hx => by simp [hapre x hx])
    · rw [List.filter_cons]
      simp [hpk]
  simp only [deleteBuildReg, h1, List.isEmpty_nil, if_true, h2]

/-- First app entry with the given package name, scanning projects in
registry order and apps in project order (the scan of
`handleAppDetailPage` and `handleDeleteBuild`). -/
def findFirstApp (reg : Registry) (pkg : String) : Option AppEntry :=
  match reg with
  | [] => none
  | p :: rest =>
      match p.apps.find? (fun a => a.packageName == pkg) with
      | some a => some a
      | none => findFirstApp rest pkg

/-- An app list whose first-match lookup fails yields no match in the
delete-build scan either. -/
theorem delBuildInApps_of_find?_none (apps : List AppEntry) (pkg fn : String)
    (h : apps.find? (fun a => a.packageName == pkg) = none) :
    delBuildInApps apps pkg fn = none :=
  delBuildInApps_none apps pkg fn
    (fun x hx => by simpa using List.find?_eq_none.mp h x hx)

/-- Delete-build scan on an app list whose first matching entry has no build
with the given file name: the list is returned structurally unchanged and
no build counts as found. -/
theorem delBuildInApps_no_match (apps : List AppEntry) (pkg fn : String)
    (a : AppEntry)
    (h : apps.find? (fun x => x.packageName == pkg) = some a)
    (hno : ∀ bb ∈ a.builds, bb.fileName ≠ fn) :
    delBuildInApps apps pkg fn = some (apps, a.builds, false) := by
  induction apps with
  | nil => simp at h
  | cons x rest ih =>
      cases hq : (x.packageName == pkg) with
      | true =>
          simp only [List.find?_cons, hq, Option.some.injEq] at h
          subst h
          rw [delBuildInApps, if_pos hq]
          have hfilter : x.builds.filter (fun b => !(b.fileName == fn)) = x.builds :=
            List.filter_eq_self.mpr (fun b hb => by simp [hno b hb])
          have hany : x.builds.any (fun b => b.fileName == fn) = false :=
            List.any_eq_false.mpr (fun b hb => by simp [hno b hb])
          rw [hfilter, hany]
      | false =>
          simp only [List.find?_cons, hq] at h
          rw [delBuildInApps, if_neg (by simp [hq]), ih h]

/-- Delete-build with a file name absent from the first matching app leaves
the whole registry structurally unchanged and reports not-found. -/
theorem deleteBuildReg_no_match (reg : Registry) (pkg fn : String)
    (a : AppEntry) (ha : findFirstApp reg pkg = some a)
    (hno : ∀ bb ∈ a.builds, bb.fileName ≠ fn) :
    deleteBuildReg reg pkg fn = (reg, DelOutcome.notFound) := by
  induction reg with
  | nil => simp [findFirstApp] at ha
  | cons p rest ih =>
      cases hfa : p.apps.find? (fun x => x.packageName == pkg) with
      | some x =>
          simp only [findFirstApp, hfa, Option.some.injEq] at ha
          subst ha
          have h1 := delBuildInApps_no_match p.apps pkg fn x hfa hno
          simp only [deleteBuildReg, h1, Bool.false_eq_true, if_false]
      | none =>
          simp only [findFirstApp, hfa] at ha
          have h0 := delBuildInApps_of_find?_none p.apps pkg fn hfa
          simp only [deleteBuildReg, h0, ih ha]

/-- C5: with the correct secret, a delete-build request for an existing app
entry (the first one the scan meets) that has no build with the given file
name fails with 404 and the build-not-found message 构建版本未找到 (deleteApp
reports a missing app as 应用未找到 instead, see
`deleteApp_auth_guard`-side definitions), and the whole state — registry and
durable file — is structurally unchanged. -/
theorem deleteBuild_unknown_file (marshal : Registry → Option String)
    (writeOk : Bool) (reg : Registry) (fs : FS) (pkg fn : String)
    (a : AppEntry) (ha : findFirstApp reg pkg = some a)
    (hno : ∀ bb ∈ a.builds, bb.fileName ≠ fn) :
    handleDeleteBuild marshal writeOk deletePassword pkg fn
        { reg := reg, fs := fs } =
      ({ reg := reg, fs := fs },
       { status := 404, message := "构建版本未找到" }) := by
  have h1 := deleteBuildReg_no_match reg pkg fn a ha hno
  simp only [handleDeleteBuild, beq_self_eq_true, if_true, h1]

/-- Witness for `deleteBuild_unknown_file` at a concrete registry. -/
theorem deleteBuild_unknown_file_witness :
    handleDeleteBuild (fun _ => some "x") true deletePassword "com.a" "f2"
        { reg := [{ projectName := "P",
                    apps := [{ appName := "A", packageName := "com.a",
                               iconPath := "",
                               builds := [{ version := "1.0", channel := "beta",
                                            releaseNotes := "", fileName := "f1",
                                            fileSize := 1, uploadTime := "t",
                                            downloadURL := "u" }] }] }],
          fs := { primary := some "x", backup := none } } =
      ({ reg := [{ projectName := "P",
                   apps := [{ appName := "A", packageName := "com.a",
                              iconPath := "",
                              builds := [{ version := "1.0", channel := "beta",
                                           releaseNotes := "", fileName := "f1",
                                           fileSize := 1, uploadTime := "t",
                                           downloadURL := "u" }] }] }],
         fs := { primary := some "x", backup := none } },
       { status := 404, message := "构建版本未找到" }) :=
  deleteBuild_unknown_file (fun _ => some "x") true
    [{ projectName := "P",
       apps := [{ appName := "A", packageName := "com.a", iconPath := "",
                  builds := [{ version := "1.0", channel := "beta",
                               releaseNotes := "", fileName := "f1",
                               fileSize := 1, uploadTime := "t",
                               downloadURL := "u" }] }] }]
    { primary := some "x", backup := none } "com.a" "f2"
    { appName := "A", packageName := "com.a", iconPath := "",
      builds := [{ version := "1.0", channel := "beta", releaseNotes := "",
                   fileName := "f1", fileSize := 1, uploadTime := "t",
                   downloadURL := "u" }] }
    rfl (by decide)

/-- Witness for `deleteBuild_removes_last_build_app` at a concrete registry:
the lone build is deleted, the app entry disappears, the emptied project
stays. -/
theorem deleteBuild_removes_last_build_app_witness :
    deleteBuildReg
        [{ projectName := "P",
           apps := [{ appName := "A", packageName := "com.a", iconPath := "",
                      builds := [{ version := "1.0", channel := "beta",
                                   releaseNotes := "", fileName := "f1",
                                   fileSize := 1, uploadTime := "t",
                                   downloadURL := "u" }] }] }]
        "com.a" "f1" =
      ([{ projectName := "P", apps := [] }], DelOutcome.ok) := by
  have h := deleteBuild_removes_last_build_app [] []
    { projectName := "P",
      apps := [{ appName := "A", packageName := "com.a", iconPath := "",
                 builds := [{ version := "1.0", channel := "beta",
                              releaseNotes := "", fileName := "f1",
                              fileSize := 1, uploadTime := "t",
                              downloadURL := "u" }] }] }
    [] []
    { appName := "A", packageName := "com.a", iconPath := "",
      builds := [{ version := "1.0", channel := "beta", releaseNotes := "",
                   fileName := "f1", fileSize := 1, uploadTime := "t",
                   downloadURL := "u" }] }
    { version := "1.0", channel := "beta", releaseNotes := "",
      fileName := "f1", fileSize := 1, uploadTime := "t", downloadURL := "u" }
    "com.a" "f1"
    (by simp) (by simp) rfl rfl rfl rfl
  simpa using h

/-- Loop of `handleDeleteApp` (main.go): scan projects in registry order;
in the first project containing an entry with the package name, remove all
such entries (Go keeps `newApps`, the non-matching ones) and stop; report
the modified project.  Later projects are not scanned further. -/
def deleteAppScan (reg : Registry) (pkg : String) : Registry × Option Project :=
  match reg with
  | [] => ([], none)
  | p :: rest =>
      if p.apps.any (fun a => a.packageName == pkg) then
        ({ p with apps := p.apps.filter (fun a => !(a.packageName == pkg)) } :: rest,
         some { p with apps := p.apps.filter (fun a => !(a.packageName == pkg)) })
      else
        let r := deleteAppScan rest pkg
        (p :: r.1, r.2)

/-- Registry part of `handleDeleteApp` (main.go): run the scan; not-found
when no project contained the package; otherwise, when the modified
project's app list became empty, remove EVERY project whose name equals
that project's name from the whole registry (Go filters `allProjects` by
`ProjectName`). -/
def deleteAppReg (reg : Registry) (pkg : String) : Registry × DelOutcome :=
  match deleteAppScan reg pkg with
  | (_, none) => (reg, DelOutcome.notFound)
  | (reg1, some p1) =>
      if p1.apps.isEmpty then
        (reg1.filter (fun q => !(q.projectName == p1.projectName)), DelOutcome.ok)
      else (reg1, DelOutcome.ok)

/-- Shallow embedding of `handleDeleteApp` (main.go): password check first,
then the registry mutation, then `saveMetadata`; build files and the icon
are removed by collaborators afterwards, outside the registry model. -/
def handleDeleteApp (marshal : Registry → Option String) (writeOk : Bool)
    (password pkg : String) (st : SysState) : SysState × HttpResp :=
  if password == deletePassword then
    let r := deleteAppReg st.reg pkg
    match r.2 with
    | DelOutcome.notFound => (st, { status := 404, message := "应用未找到" })
    | DelOutcome.ok =>
        let s := saveMetadata marshal writeOk r.1 st.fs
        match s.2 with
        | some _ => ({ reg := r.1, fs := s.1 }, { status := 500, message := "更新元数据失败" })
        | none => ({ reg := r.1, fs := s.1 }, { status := 200, message := "应用已删除" })
  else
    (st, { status := 401, message := "删除密码错误" })

/-- C6: with a wrong secret, both delete handlers answer 401 with the
password-error message and leave the whole state — registry and durable
file — untouched, whatever the registry and the arguments are.  (The Go
check runs before the mutex is even acquired; lock order itself is outside
this sequential model.) -/
theorem delete_auth_guard (marshal : Registry → Option String)
    (writeOk : Bool) (password pkg fn : String) (st : SysState)
    (h : password ≠ deletePassword) :
    handleDeleteBuild marshal writeOk password pkg fn st =
      (st, { status := 401, message := "删除密码错误" }) ∧
    handleDeleteApp marshal writeOk password pkg st =
      (st, { status := 401, message := "删除密码错误" }) := by
  have hb : (password == deletePassword) = false := by simp [h]
  exact ⟨by simp [handleDeleteBuild, hb], by simp [handleDeleteApp, hb]⟩

/-- Witness for `delete_auth_guard` with a concrete wrong password. -/
theorem delete_auth_guard_witness :
    handleDeleteBuild (fun _ => some "x") true "0000" "com.a" "f1"
        { reg := [], fs := { primary := none, backup := none } } =
      ({ reg := [], fs := { primary := none, backup := none } },
       { status := 401, message := "删除密码错误" }) ∧
    handleDeleteApp (fun _ => some "x") true "0000" "com.a"
        { reg := [], fs := { primary := none, backup := none } } =
      ({ reg := [], fs := { primary := none, backup := none } },
       { status := 401, message := "删除密码错误" }) :=
  delete_auth_guard (fun _ => some "x") true "0000" "com.a" "f1"
    { reg := [], fs := { primary := none, backup := none } } (by decide)

/-- C10 (counterexample to the claim as stated): two projects share the
name "P" and both contain an entry for `com.a`.  `deleteApp` empties the
first project's app list and then removes every project named "P", so the
LATER project does not survive with its app list unchanged — the whole
registry becomes empty. -/
theorem deleteApp_later_project_cex :
    deleteAppReg
        [{ projectName := "P",
           apps := [{ appName := "A1", packageName := "com.a", iconPath := "",
                      builds := [{ version := "1.0", channel := "beta",
                                   releaseNotes := "", fileName := "f1",
                                   fileSize := 1, uploadTime := "t1",
                                   downloadURL := "u1" }] }] },
         { projectName := "P",
           apps := [{ appName := "A2", packageName := "com.a", iconPath := "",
                      builds := [{ version := "2.0", channel := "beta",
                                   releaseNotes := "", fileName := "f2",
                                   fileSize := 2, uploadTime := "t2",
                                   downloadURL := "u2" }] }] }]
        "com.a" =
      (([] : Registry), DelOutcome.ok) := by
  rfl

/-- Delete-app scan passes unchanged over a prefix of projects containing
no entry for the package. -/
theorem deleteAppScan_append (pre rest : Registry) (pkg : String)
    (hpre : ∀ q ∈ pre, ∀ x ∈ q.apps, x.packageName ≠ pkg) :
    deleteAppScan (pre ++ rest) pkg =
      (pre ++ (deleteAppScan rest pkg).1, (deleteAppScan rest pkg).2) := by
  induction pre with
  | nil => simp
  | cons q pre' ih =>
      have hq : q.apps.any (fun a => a.packageName == pkg) = false :=
        List.any_eq_false.mpr
          (fun x hx => by simp [hpre q (List.mem_cons_self q pre') x hx])
      rw [List.cons_append, deleteAppScan, if_neg (by simp [hq]),
        ih (fun r hr => hpre r (List.mem_cons_of_mem q hr))]
      rfl

/-- C10 (amended): `deleteApp` removes matching entries only from the first
project (in registry order) that contains one.  When that project's app
list stays non-empty, every other project — in particular every later one —
is left fully unchanged.  When the app list becomes empty, the code removes
every project sharing that project's NAME (earlier and later ones alike);
the surviving projects keep their app lists unchanged. -/
theorem deleteApp_first_project_only (pre post : Registry) (p : Project)
    (pkg : String)
    (hpre : ∀ q ∈ pre, ∀ x ∈ q.apps, x.packageName ≠ pkg)
    (hp : ∃ x ∈ p.apps, x.packageName = pkg) :
    deleteAppReg (pre ++ p :: post) pkg =
      (if (p.apps.filter (fun x => !(x.packageName == pkg))).isEmpty
       then pre.filter (fun q => !(q.projectName == p.projectName)) ++
            post.filter (fun q => !(q.projectName == p.projectName))
       else pre ++
            { p with apps := p.apps.filter (fun x => !(x.packageName == pkg)) } :: post,
       DelOutcome.ok) := by
  have hany : p.apps.any (fun a => a.packageName == pkg) = true := by
    rcases hp with ⟨x, hx, he⟩
    exact List.any_eq_true.mpr ⟨x, hx, by simp [he]⟩
  have hscan : deleteAppScan (pre ++ p :: post) pkg =
      (pre ++ { p with apps := p.apps.filter (fun a => !(a.packageName == pkg)) } :: post,
       some { p with apps := p.apps.filter (fun a => !(a.packageName == pkg)) }) := by
    rw [deleteAppScan_append pre (p :: post) pkg hpre, deleteAppScan,
      if_pos hany]
  rw [deleteAppReg, hscan]
  by_cases he : (p.apps.filter (fun x => !(x.packageName == pkg))).isEmpty = true
  · rw [if_pos he]
    simp only [he, if_true]
    rw [List.filter_append, List.filter_cons]
    simp
  · rw [if_neg he]
    simp only [Bool.not_eq_true] at he
    simp [he]

/-- Witness for `deleteApp_first_project_only`: the first project keeps a
second app, so the later project `Q` is untouched. -/
theorem deleteApp_first_project_only_witness :
    deleteAppReg
        [{ projectName := "P",
           apps := [{ appName := "A", packageName := "com.a", iconPath := "",
                      builds := [] },
                    { appName := "B", packageName := "com.b", iconPath := "",
                      builds := [] }] },
         { projectName := "Q",
           apps := [{ appName := "C", packageName := "com.a", iconPath := "",
                      builds := [] }] }]
        "com.a" =
      (if (({ projectName := "P",
              apps := [{ appName := "A", packageName := "com.a", iconPath := "",
                         builds := [] },
                       { appName := "B", packageName := "com.b", iconPath := "",
                         builds := [] }] } : Project).apps.filter
              (fun x => !(x.packageName == "com.a"))).isEmpty
       then List.filter (fun q => !(q.projectName == "P")) ([] : Registry) ++
            List.filter (fun q => !(q.projectName == "P"))
              [{ projectName := "Q",
                 apps := [{ appName := "C", packageName := "com.a",
                            iconPath := "", builds := [] }] }]
       else [] ++
            { projectName := "P",
              apps := ({ projectName := "P",
                         apps := [{ appName := "A", packageName := "com.a",
                                    iconPath := "", builds := [] },
                                  { appName := "B", packageName := "com.b",
                                    iconPath := "", builds := [] }] } : Project).apps.filter
                (fun x => !(x.packageName == "com.a")) } ::
            [{ projectName := "Q",
               apps := [{ appName := "C", packageName := "com.a",
                          iconPath := "", builds := [] }] }],
       DelOutcome.ok) :=
  deleteApp_first_project_only []
    [{ projectName := "Q",
       apps := [{ appName := "C", packageName := "com.a", iconPath := "",
                  builds := [] }] }]
    { projectName := "P",
      apps := [{ appName := "A", packageName := "com.a", iconPath := "",
                 builds := [] },
               { appName := "B", packageName := "com.b", iconPath := "",
                 builds := [] }] }
    "com.a" (by simp)
    ⟨{ appName := "A", packageName := "com.a", iconPath := "", builds := [] },
     by simp, rfl⟩

end Uploads
